import Mathlib

/-!
# Verification of the pinefile task engine

A shallow embedding of the task-resolution and execution engine of the
pinefile repository (`validTaskValue`, `resolveTask`, `getFnName`, `doneify`,
`execute`, `runTask`), together with theorems checking the natural-language
specification against it.

JavaScript values that can appear in a task namespace ("pinefile") are
modelled by `JSVal`.  Functions are first-order data (`FnVal`): an identity
used to record invocations in a trace, the declared parameter count
(`Function.length`, which the engine dispatches on), and a fixed behaviour
(throw/reject with an error, and — when called in runner-producing position —
a returned value `RVal`).  The engine itself is embedded as a fuel-indexed
state machine over a state carrying the namespace (which `resolveTask`
can mutate) and a trace of observable events (log lines and invocations).
JavaScript's single-threaded sequential semantics lets `await` be modelled
as plain sequencing; a promise rejection is modelled by the `Except` error
channel.
-/

namespace Pine

/-- The `typeof`-style classification of a non-callable produced value: just
enough structure to compute the error message the engine builds from it
(`runner === null ? 'null' : typeof runner`). -/
inductive PrimTy where
  | nullT
  | undefT
  | numT
  | strT
  | boolT
  | objT
deriving DecidableEq, Repr

/-- `typeof` of a non-callable value, except that the engine special-cases
`null` (whose JavaScript `typeof` is `"object"`) to the literal `"null"`. -/
def beforeTypeName : PrimTy → String
  | .nullT => "null"
  | .undefT => "undefined"
  | .numT => "number"
  | .strT => "string"
  | .boolT => "boolean"
  | .objT => "object"

/-- A produced runner function: the callable a runner-producing function
returns.  `arity` is its declared parameter count (the engine wraps it with
`doneify` when that is `0`).  `throws` models a synchronous throw when it is
invoked; otherwise it calls the completion callback once with `doneErr`
(`none` = success). -/
structure RunnerFn where
  id : String
  arity : Nat
  throws : Option String
  doneErr : Option String
deriving DecidableEq, Repr

/-- The value a runner-producing function returns: a callable runner, a
promise resolving to such a value, or a non-callable value (kept only as its
type tag, which is all the engine reads from it). -/
inductive RVal where
  | fnR (r : RunnerFn)
  | promiseR (v : RVal)
  | nonFn (t : PrimTy)
deriving DecidableEq, Repr

/-- A function value stored in a namespace or in the configuration.
`arity` is `Function.length`, which `execute` dispatches on.  When invoked
as a plain task (`fn(args)`) the call either succeeds or throws/rejects with
`throws`.  When invoked in runner-producing position (arity 3/4 dispatch) it
either throws `throws` synchronously or returns `ret`. -/
structure FnVal where
  id : String
  arity : Nat
  throws : Option String
  ret : RVal
deriving DecidableEq, Repr

/-- A JavaScript value as far as the task engine observes it: a function, a
plain object (ordered key/value entries), or a primitive. -/
inductive JSVal where
  | fn (f : FnVal)
  | obj (entries : List (String × JSVal))
  | str (s : String)
  | num (n : Int)
  | boolV (b : Bool)
  | null
  | undefined

namespace JSVal

/-- Modelled from the spec: `isObject` from `@pinefile/utils` (the utils
package is not part of the embedded sources).  Per the spec's data model a
"mapping" is a plain object; functions, arrays and primitives are not
mappings. -/
def isObject : JSVal → Bool
  | .obj _ => true
  | _ => false

/-- `typeof v === 'function'`. -/
def isFn : JSVal → Bool
  | .fn _ => true
  | _ => false

/-- JavaScript truthiness of a modelled value. -/
def truthy : JSVal → Bool
  | .fn _ => true
  | .obj _ => true
  | .str s => s ≠ ""
  | .num n => n ≠ 0
  | .boolV b => b
  | .null => false
  | .undefined => false

end JSVal

/-- First-match property lookup in an object's entry list. -/
def lookupProp : List (String × JSVal) → String → Option JSVal
  | [], _ => none
  | (k', v) :: rest, k => if k' = k then some v else lookupProp rest k

/-- JavaScript property access `v[k]`: `undefined` when `v` is not an object
or the key is absent (functions carry no own properties in this model). -/
def getProp (v : JSVal) (k : String) : JSVal :=
  match v with
  | .obj es => (lookupProp es k).getD .undefined
  | _ => .undefined

/-- JavaScript property assignment on an entry list: overwrite the first
matching key in place, append when absent. -/
def setEntries : List (String × JSVal) → String → JSVal → List (String × JSVal)
  | [], k, v => [(k, v)]
  | (k', v') :: rest, k, v =>
      if k' = k then (k, v) :: rest else (k', v') :: setEntries rest k v

/-- Property assignment `o[k] = v` (no effect on non-objects). -/
def setPropVal (o : JSVal) (k : String) (v : JSVal) : JSVal :=
  match o with
  | .obj es => .obj (setEntries es k v)
  | x => x

/-- One step of the resolver's fold: `prev[cur] || false`. -/
def stepProp (v : JSVal) (k : String) : JSVal :=
  let p := getProp v k
  if p.truthy then p else .boolV false

/-- The resolver's fold `properties.reduce((prev, cur) => prev[cur] || false, obj)`. -/
def walkPath : JSVal → List String → JSVal
  | v, [] => v
  | v, k :: ks => walkPath (stepProp v k) ks

/-- Replace the node reached by `path` (through the same `|| false` steps the
resolver takes) with `newVal`, modelling that the resolver's in-place
mutation of the resolved node is visible from the root. -/
def updatePathSet : JSVal → List String → JSVal → JSVal
  | _, [], newVal => newVal
  | root, k :: ks, newVal =>
      setPropVal root k (updatePathSet (stepProp root k) ks newVal)

/-- Splitting accumulator: JavaScript `String.prototype.split` on a
one-character separator (the engine always separates with `":"`), written by
structural recursion over the characters so that it computes by reduction. -/
def splitAux (sep : Char) : List Char → List Char → List (List Char)
  | [], acc => [acc.reverse]
  | c :: cs, acc =>
      if c = sep then acc.reverse :: splitAux sep cs []
      else splitAux sep cs (c :: acc)

/-- `key.split(sep)`: always non-empty; `""` splits to `[""]`. -/
def splitOnC (s : String) (sep : Char) : List String :=
  (splitAux sep s.data []).map (fun l => ⟨l⟩)

/-- `Array.prototype.join(sep)` over strings. -/
def joinSep (sep : Char) : List String → String
  | [] => ""
  | [x] => x
  | x :: xs => x ++ sep.toString ++ joinSep sep xs

/-- `validTaskValue` from the source: a function, or a non-empty object whose
`_` entry is absent or a function. -/
def validTaskValue (val : JSVal) : Bool :=
  val.isFn ||
    (val.isObject && (match val with | .obj es => !es.isEmpty | _ => false) &&
      (match getProp val "_" with
       | .undefined => true
       | .fn _ => true
       | _ => false))

/-- `resolveTask` from the source.  The returned pair is (result, namespace
after the call): the source mutates `task.default` in place
(`task.default = task.default._`) when the resolved node is an object whose
`_` is falsy and whose `default` is an object, so the namespace is threaded
explicitly.  (The source also accepts a pre-split array key; keys here are
strings, which is the type the engine uses.)  `resolveAccept` is the tail of
the function after the reduce walk: the validity guards, the `_` collapse,
and the in-place `default` flattening, parametrised by the walked-to task
value. -/
def resolveAccept (o : JSVal) (properties : List String) (task : JSVal) :
    JSVal × JSVal :=
  if !task.isObject && !validTaskValue task then (.boolV false, o)
  else if task.isObject && (getProp task "_").truthy then (getProp task "_", o)
  else if (getProp task "default").isObject then
    (setPropVal task "default" (getProp (getProp task "default") "_"),
     updatePathSet o properties
       (setPropVal task "default" (getProp (getProp task "default") "_")))
  else (task, o)

def resolveTaskM (o : JSVal) (key : String) (sep : Char := ':') : JSVal × JSVal :=
  if key = "" then (.boolV false, o)
  else resolveAccept o (splitOnC key sep) (walkPath o (splitOnC key sep))

/-- `getFnName` from the source: split on the separator, pop the last
segment, prepend the prefix to it, rejoin. -/
def getFnName (name : String) (pre : String) (sep : Char := ':') : String :=
  let names := splitOnC name sep
  let lastName := names.getLast?.getD ""
  joinSep sep (names.dropLast ++ [pre ++ lastName])

/-- The argument bag passed to a task (`args`); an ordered record of
(string key, integer value) pairs is enough for the spec's observations. -/
abbrev Args := List (String × Int)

/-- Observable events of one engine run, in order: log lines (`starting`,
`finished`, `notFound`, `errorLog`) and invocations of user functions
(`callTask` for a plain task called with the argument bag, `callProducer`
for an arity-3/4 runner-producing function, `callRunner` for a produced
runner).  `unhandledRejection` records an error escaping the completion
callback, which no caller awaits (`done()` is fired without `await`). -/
inductive Event where
  | starting (name : String)
  | finished (name : String)
  | notFound (name : String)
  | errorLog (msg : String)
  | callTask (id : String) (args : Args)
  | callProducer (id : String) (name : String) (args : Args) (withOptions : Bool)
  | callRunner (id : String)
  | unhandledRejection (msg : String)
deriving DecidableEq, Repr

/-- Engine state: the pinefile namespace (mutable through `resolveTask`'s
default-flattening) and the trace of events so far. -/
structure EngineSt where
  ns : JSVal
  trace : List Event

/-- The engine monad: state plus an error channel for a rejected promise
reaching `runTask`. -/
def M (α : Type) : Type := EngineSt → Except String α × EngineSt

instance : Monad M where
  pure a := fun st => (.ok a, st)
  bind m f := fun st =>
    match m st with
    | (.ok a, st') => f a st'
    | (.error e, st') => (.error e, st')

/-- Append one event to the trace. -/
def emit (e : Event) : M Unit := fun st =>
  (.ok (), { st with trace := st.trace ++ [e] })

/-- A rejected promise propagating out of the current `await` chain. -/
def throwM {α : Type} (e : String) : M α := fun st => (.error e, st)

/-- Read the current namespace object. -/
def getNs : M JSVal := fun st => (.ok st.ns, st)

/-- `resolveTask(pinefile, key)` as a stateful step: returns the resolved
value and installs the (possibly default-flattened) namespace. -/
def stResolve (key : String) : M JSVal := fun st =>
  let r := resolveTaskM st.ns key ':'
  (.ok r.1, { st with ns := r.2 })

/-- Run a computation whose promise nobody awaits (the completion callback:
`done()` is called without `await` both by `doneify` and by the plain-task
wrapper).  A rejection there does not propagate to `runTask`; it surfaces
only as an unhandled-rejection event. -/
def detach (m : M Unit) : M Unit := fun st =>
  match m st with
  | (.ok _, st') => (.ok (), st')
  | (.error e, st') => (.ok (), { st' with trace := st'.trace ++ [.unhandledRejection e] })

/-- The configured runner, as `getRunner` hands it to `execute`.  Modelled
from the spec: the runner module (loading by path etc.) is not among the
embedded sources; per the spec the configuration's `runner` field is either
a plain callable, an object with a callable `default` and an optional
`taskExists(namespace, name, args, options)` predicate, or nothing usable. -/
inductive RunnerCfg where
  | noRunner
  | func (f : FnVal)
  | objDefault (d : FnVal)
      (taskExistsP : Option (JSVal → String → Args → JSVal → Bool))

/-- Configuration as consumed by `execute`: the runner and the auxiliary
`options` value passed to 4-parameter runner functions. -/
structure Config where
  runner : RunnerCfg
  options : JSVal

/-- `isObject(options) && Object.keys(options).length`. -/
def optionsNonempty (options : JSVal) : Bool :=
  match options with
  | .obj es => !es.isEmpty
  | _ => false

/-- Outcome of runner selection (source lines: `fn` / `fnName` / `fnExists`
after the runner branches and the object-`default` unwrapping). -/
structure Selection where
  fn : JSVal
  fnName : String
  fnExists : Bool

/-- Runner selection from the source: a callable configured runner wins and
is always "found"; else an object runner's callable `default` is used with
`taskExists` (when present) deciding "found"; else the resolved task counts
when callable.  Afterwards, a selected object with a truthy `default` is
replaced by that `default` (adjusting the task name and re-deciding
"found" by its callability). -/
def selectFn (cfg : Config) (fn0 : JSVal) (ns : JSVal) (name : String)
    (args : Args) : Selection :=
  let base : Selection :=
    match cfg.runner with
    | .func f => ⟨.fn f, name, true⟩
    | .objDefault d te =>
        ⟨.fn d, name,
          match te with
          | some p => p ns name args cfg.options
          | none => true⟩
    | .noRunner => ⟨fn0, name, fn0.isFn⟩
  if base.fn.isObject && (getProp base.fn "default").truthy then
    let d := getProp base.fn "default"
    ⟨d, if name ≠ "default" then name ++ ":default" else "default", d.isFn⟩
  else base

/-- The `runner` variable right after the arity dispatch switch: either the
value returned by an invoked runner-producing function, or the engine's
plain-task wrapper closing over the task function (not yet invoked). -/
inductive RIVal where
  | rv (v : RVal)
  | wrapped (f : FnVal)

/-- Invoke a runner-producing function (arity 3 or 4 dispatch): record the
call, then either throw synchronously or hand back its returned value. -/
def invokeProducer (f : FnVal) (name : String) (args : Args)
    (withOpts : Bool) : M RIVal := do
  emit (.callProducer f.id name args withOpts)
  match f.throws with
  | some e => throwM e
  | none => pure (.rv f.ret)

/-- The arity dispatch switch (`switch (fn.length)`): 4-parameter functions
get `options` when it is a non-empty mapping; 3-parameter functions are
plugin/runner shaped; anything else is a plain task, wrapped lazily. -/
def dispatch (cfg : Config) (f : FnVal) (name : String) (args : Args) : M RIVal :=
  match f.arity with
  | 4 => invokeProducer f name args (optionsNonempty cfg.options)
  | 3 => invokeProducer f name args false
  | _ => pure (.wrapped f)

/-- `await` the produced value and classify it: strip promise layers, then
either a callable runner or a non-callable (kept as its type tag). -/
def settle : RVal → RunnerFn ⊕ PrimTy
  | .fnR r => .inl r
  | .promiseR v => settle v
  | .nonFn t => .inr t

/-- The runner value about to be invoked: the plain-task wrapper, a produced
callable, or the engine's replacement thrower for a non-callable produced
value (which, having zero parameters, is `doneify`-wrapped and so delivers
its message through the completion callback). -/
inductive RunState where
  | wrapped (f : FnVal)
  | produced (r : RunnerFn)
  | invalid (msg : String)

/-- Lines `await`-ing a promise-valued runner and substituting the throwing
replacement for a non-callable one. -/
def settleRunner : RIVal → RunState
  | .wrapped f => .wrapped f
  | .rv v =>
      match settle v with
      | .inl r => .produced r
      | .inr t =>
          .invalid ("Expected return value of runner function to be a function, got "
            ++ beforeTypeName t)

/-- Invoke the runner with the completion callback and report the error
argument the callback receives (`none` on success).  The plain-task wrapper
and `doneify` catch everything and route it to the callback; a produced
runner that itself declares parameters and throws synchronously rejects the
whole execution. -/
def runRunner (rs : RunState) (args : Args) : M (Option String) :=
  match rs with
  | .wrapped f => do
      emit (.callTask f.id args)
      pure f.throws
  | .produced r => do
      emit (.callRunner r.id)
      match r.arity, r.throws with
      | 0, some e => pure (some e)
      | 0, none => pure none
      | _ + 1, some e => throwM e
      | _ + 1, none => pure r.doneErr
  | .invalid msg => pure (some msg)

/-- `if (preFunc) await execute(...)` / `if (postFunc) await execute(...)`:
run the recursive hook execution when the resolved hook value is truthy. -/
def hookIf (recur : String → Args → M Unit) (hname : String) (hfn : JSVal)
    (args : Args) : M Unit :=
  if hfn.truthy then recur hname args else pure ()

/-- `if (err) log.error(err)`: the completion callback's error logging. -/
def logErrArg (doneArg : Option String) : M Unit :=
  match doneArg with
  | some e => emit (.errorLog e)
  | none => pure ()

/-- The completion callback body (lines after `runner(async (err) => ...)`):
log a delivered error, log the finish line, then derive, resolve and (when
truthy) recursively execute the `post` hook. -/
def completion (recur : String → Args → M Unit) (doneArg : Option String)
    (name fnName : String) (args : Args) : M Unit := do
  logErrArg doneArg
  emit (.finished name)
  let postFunc ← stResolve (getFnName fnName "post")
  hookIf recur (getFnName fnName "post") postFunc args

/-- The body of `execute` after runner selection: when nothing usable was
found, log the not-found error and stop (before any hook); otherwise run the
arity dispatch, the pre-hook (recursively, to full completion), the start
log, the runner invocation, and the completion callback (which logs and
runs the post-hook; nobody awaits it). -/
def execSelected (cfg : Config) (recur : String → Args → M Unit)
    (sel : Selection) (name : String) (args : Args) : M Unit :=
  match sel.fnExists, sel.fn with
  | true, .fn f => do
      let r ← dispatch cfg f name args
      let preFunc ← stResolve (getFnName sel.fnName "pre")
      hookIf recur (getFnName sel.fnName "pre") preFunc args
      emit (.starting name)
      let doneArg ← runRunner (settleRunner r) args
      detach (completion recur doneArg name sel.fnName args)
  | _, _ => emit (.notFound name)

/-- `execute` from the source, with explicit fuel bounding the pre/post hook
recursion depth (the source recurses without a guard; every claim is settled
at a fuel exceeding the recursion the namespace can trigger).  Out of fuel,
the run stops silently. -/
def executeF (cfg : Config) : Nat → String → Args → M Unit
  | 0, _, _ => pure ()
  | fuel + 1, name, args => do
    let fn0 ← stResolve name
    let ns ← getNs
    execSelected cfg (executeF cfg fuel) (selectFn cfg fn0 ns name args) name args

/-- `runTask`: the public entry point, started on an empty trace. -/
def runTask (cfg : Config) (fuel : Nat) (pinefile : JSVal) (name : String)
    (args : Args) : Except String Unit × EngineSt :=
  executeF cfg fuel name args ⟨pinefile, []⟩

/-! ## Engine infrastructure: the namespace changes only by resolver steps -/

/-- One `resolveTask` call's possible effect on the namespace. -/
def flattenStep (a b : JSVal) : Prop :=
  ∃ key : String, b = (resolveTaskM a key ':').2

/-- The computation changes the namespace only through chains of
`resolveTask` flattening steps. -/
def NsReach {α : Type} (m : M α) : Prop :=
  ∀ st : EngineSt, Relation.ReflTransGen flattenStep st.ns ((m st).2).ns

theorem nsReach_pure {α : Type} (a : α) : NsReach (pure (f := M) a) :=
  fun _ => .refl

theorem nsReach_bind {α β : Type} {m : M α} {f : α → M β}
    (hm : NsReach m) (hf : ∀ a, NsReach (f a)) : NsReach (m >>= f) := by
  intro st
  have hb : (m >>= f) st
      = (match m st with
         | (.ok a, st') => f a st'
         | (.error e, st') => (.error e, st')) := rfl
  rw [hb]
  rcases hms : m st with ⟨r, st₁⟩
  have h1 : Relation.ReflTransGen flattenStep st.ns st₁.ns := by
    have h := hm st; rw [hms] at h; exact h
  cases r with
  | ok a => exact h1.trans (hf a st₁)
  | error e => exact h1

theorem nsReach_emit (e : Event) : NsReach (emit e) := fun _ => .refl

theorem nsReach_throw {α : Type} (e : String) : NsReach (throwM (α := α) e) :=
  fun _ => .refl

theorem nsReach_getNs : NsReach getNs := fun _ => .refl

theorem nsReach_stResolve (key : String) : NsReach (stResolve key) :=
  fun _ => Relation.ReflTransGen.single ⟨key, rfl⟩

theorem nsReach_detach {m : M Unit} (hm : NsReach m) : NsReach (detach m) := by
  intro st
  have hd : detach m st
      = (match m st with
         | (.ok _, st') => (.ok (), st')
         | (.error e, st') =>
             (.ok (), { st' with trace := st'.trace ++ [.unhandledRejection e] })) := rfl
  rw [hd]
  rcases hms : m st with ⟨r, st₁⟩
  have h1 : Relation.ReflTransGen flattenStep st.ns st₁.ns := by
    have h := hm st; rw [hms] at h; exact h
  cases r with
  | ok a => exact h1
  | error e => exact h1

theorem nsReach_ite {c : Prop} [Decidable c] {m₁ m₂ : M Unit}
    (h₁ : NsReach m₁) (h₂ : NsReach m₂) : NsReach (if c then m₁ else m₂) := by
  by_cases hc : c
  · rw [if_pos hc]; exact h₁
  · rw [if_neg hc]; exact h₂

theorem nsReach_hookIf {recur : String → Args → M Unit}
    (hrec : ∀ nm a, NsReach (recur nm a)) (hname : String) (hfn : JSVal)
    (args : Args) : NsReach (hookIf recur hname hfn args) := by
  unfold hookIf
  exact nsReach_ite (hrec _ _) (nsReach_pure _)

theorem nsReach_invokeProducer (f : FnVal) (name : String) (args : Args)
    (w : Bool) : NsReach (invokeProducer f name args w) := by
  unfold invokeProducer
  refine nsReach_bind (nsReach_emit _) (fun _ => ?_)
  cases f.throws with
  | none => exact nsReach_pure _
  | some e => exact nsReach_throw e

theorem nsReach_dispatch (cfg : Config) (f : FnVal) (name : String)
    (args : Args) : NsReach (dispatch cfg f name args) := by
  unfold dispatch
  split
  · exact nsReach_invokeProducer f name args _
  · exact nsReach_invokeProducer f name args false
  · exact nsReach_pure _

theorem nsReach_runRunner (rs : RunState) (args : Args) :
    NsReach (runRunner rs args) := by
  unfold runRunner
  cases rs with
  | wrapped f => exact nsReach_bind (nsReach_emit _) (fun _ => nsReach_pure _)
  | produced r =>
      refine nsReach_bind (nsReach_emit _) (fun _ => ?_)
      split
      · exact nsReach_pure _
      · exact nsReach_pure _
      · exact nsReach_throw _
      · exact nsReach_pure _
  | invalid msg => exact nsReach_pure _

theorem nsReach_completion {recur : String → Args → M Unit}
    (hrec : ∀ nm a, NsReach (recur nm a)) (doneArg : Option String)
    (name fnName : String) (args : Args) :
    NsReach (completion recur doneArg name fnName args) := by
  unfold completion
  refine nsReach_bind ?_ (fun _ => ?_)
  · unfold logErrArg
    cases doneArg with
    | some e => exact nsReach_emit _
    | none => exact nsReach_pure _
  · refine nsReach_bind (nsReach_emit _) (fun _ => ?_)
    refine nsReach_bind (nsReach_stResolve _) (fun p => ?_)
    exact nsReach_hookIf hrec _ _ _

theorem nsReach_execSelected (cfg : Config) {recur : String → Args → M Unit}
    (hrec : ∀ nm a, NsReach (recur nm a)) (sel : Selection) (name : String)
    (args : Args) : NsReach (execSelected cfg recur sel name args) := by
  obtain ⟨sfn, snm, sex⟩ := sel
  cases sex with
  | false => cases sfn <;> exact nsReach_emit _
  | true =>
      cases sfn with
      | fn f =>
          show NsReach (dispatch cfg f name args >>= _)
          refine nsReach_bind (nsReach_dispatch cfg f name args) (fun r => ?_)
          refine nsReach_bind (nsReach_stResolve _) (fun preFunc => ?_)
          refine nsReach_bind (nsReach_hookIf hrec _ _ _) (fun _ => ?_)
          refine nsReach_bind (nsReach_emit _) (fun _ => ?_)
          refine nsReach_bind (nsReach_runRunner _ _) (fun doneArg => ?_)
          exact nsReach_detach (nsReach_completion hrec doneArg name snm args)
      | obj es => exact nsReach_emit _
      | str s => exact nsReach_emit _
      | num n => exact nsReach_emit _
      | boolV b => exact nsReach_emit _
      | null => exact nsReach_emit _
      | undefined => exact nsReach_emit _

theorem nsReach_executeF (cfg : Config) :
    ∀ (fuel : Nat) (name : String) (args : Args),
      NsReach (executeF cfg fuel name args) := by
  intro fuel
  induction fuel with
  | zero => intro name args; exact nsReach_pure _
  | succ n ih =>
      intro name args
      show NsReach (stResolve name >>= _)
      refine nsReach_bind (nsReach_stResolve _) (fun fn0 => ?_)
      refine nsReach_bind nsReach_getNs (fun ns => ?_)
      exact nsReach_execSelected cfg (fun nm a => ih nm a) _ name args

/-! ## Engine infrastructure: the trace only grows -/

/-- The computation only appends to the trace. -/
def TraceApp {α : Type} (m : M α) : Prop :=
  ∀ st : EngineSt, ∃ t : List Event, ((m st).2).trace = st.trace ++ t

theorem traceApp_pure {α : Type} (a : α) : TraceApp (pure (f := M) a) :=
  fun st => ⟨[], (List.append_nil st.trace).symm⟩

theorem traceApp_bind {α β : Type} {m : M α} {f : α → M β}
    (hm : TraceApp m) (hf : ∀ a, TraceApp (f a)) : TraceApp (m >>= f) := by
  intro st
  have hb : (m >>= f) st
      = (match m st with
         | (.ok a, st') => f a st'
         | (.error e, st') => (.error e, st')) := rfl
  rw [hb]
  rcases hms : m st with ⟨r, st₁⟩
  obtain ⟨t₁, h₁⟩ : ∃ t, st₁.trace = st.trace ++ t := by
    have h := hm st; rw [hms] at h; exact h
  cases r with
  | ok a =>
      obtain ⟨t₂, h₂⟩ := hf a st₁
      exact ⟨t₁ ++ t₂, by rw [h₂, h₁, List.append_assoc]⟩
  | error e => exact ⟨t₁, h₁⟩

theorem traceApp_emit (e : Event) : TraceApp (emit e) := fun _ => ⟨[e], rfl⟩

theorem traceApp_throw {α : Type} (e : String) : TraceApp (throwM (α := α) e) :=
  fun st => ⟨[], (List.append_nil st.trace).symm⟩

theorem traceApp_getNs : TraceApp getNs :=
  fun st => ⟨[], (List.append_nil st.trace).symm⟩

theorem traceApp_stResolve (key : String) : TraceApp (stResolve key) :=
  fun st => ⟨[], (List.append_nil st.trace).symm⟩

theorem traceApp_detach {m : M Unit} (hm : TraceApp m) : TraceApp (detach m) := by
  intro st
  have hd : detach m st
      = (match m st with
         | (.ok _, st') => (.ok (), st')
         | (.error e, st') =>
             (.ok (), { st' with trace := st'.trace ++ [.unhandledRejection e] })) := rfl
  rw [hd]
  rcases hms : m st with ⟨r, st₁⟩
  obtain ⟨t₁, h₁⟩ : ∃ t, st₁.trace = st.trace ++ t := by
    have h := hm st; rw [hms] at h; exact h
  cases r with
  | ok a => exact ⟨t₁, h₁⟩
  | error e => exact ⟨t₁ ++ [.unhandledRejection e], by simp [h₁]⟩

theorem traceApp_ite {c : Prop} [Decidable c] {m₁ m₂ : M Unit}
    (h₁ : TraceApp m₁) (h₂ : TraceApp m₂) : TraceApp (if c then m₁ else m₂) := by
  by_cases hc : c
  · rw [if_pos hc]; exact h₁
  · rw [if_neg hc]; exact h₂

theorem traceApp_hookIf {recur : String → Args → M Unit}
    (hrec : ∀ nm a, TraceApp (recur nm a)) (hname : String) (hfn : JSVal)
    (args : Args) : TraceApp (hookIf recur hname hfn args) := by
  unfold hookIf
  exact traceApp_ite (hrec _ _) (traceApp_pure _)

theorem traceApp_logErrArg (doneArg : Option String) :
    TraceApp (logErrArg doneArg) := by
  unfold logErrArg
  cases doneArg with
  | some e => exact traceApp_emit _
  | none => exact traceApp_pure _

theorem traceApp_invokeProducer (f : FnVal) (name : String) (args : Args)
    (w : Bool) : TraceApp (invokeProducer f name args w) := by
  unfold invokeProducer
  refine traceApp_bind (traceApp_emit _) (fun _ => ?_)
  cases f.throws with
  | none => exact traceApp_pure _
  | some e => exact traceApp_throw e

theorem traceApp_dispatch (cfg : Config) (f : FnVal) (name : String)
    (args : Args) : TraceApp (dispatch cfg f name args) := by
  unfold dispatch
  split
  · exact traceApp_invokeProducer f name args _
  · exact traceApp_invokeProducer f name args false
  · exact traceApp_pure _

theorem traceApp_runRunner (rs : RunState) (args : Args) :
    TraceApp (runRunner rs args) := by
  unfold runRunner
  cases rs with
  | wrapped f => exact traceApp_bind (traceApp_emit _) (fun _ => traceApp_pure _)
  | produced r =>
      refine traceApp_bind (traceApp_emit _) (fun _ => ?_)
      split
      · exact traceApp_pure _
      · exact traceApp_pure _
      · exact traceApp_throw _
      · exact traceApp_pure _
  | invalid msg => exact traceApp_pure _

theorem traceApp_completion {recur : String → Args → M Unit}
    (hrec : ∀ nm a, TraceApp (recur nm a)) (doneArg : Option String)
    (name fnName : String) (args : Args) :
    TraceApp (completion recur doneArg name fnName args) := by
  unfold completion
  refine traceApp_bind (traceApp_logErrArg doneArg) (fun _ => ?_)
  refine traceApp_bind (traceApp_emit _) (fun _ => ?_)
  refine traceApp_bind (traceApp_stResolve _) (fun p => ?_)
  exact traceApp_hookIf hrec _ _ _

theorem traceApp_execSelected (cfg : Config) {recur : String → Args → M Unit}
    (hrec : ∀ nm a, TraceApp (recur nm a)) (sel : Selection) (name : String)
    (args : Args) : TraceApp (execSelected cfg recur sel name args) := by
  obtain ⟨sfn, snm, sex⟩ := sel
  cases sex with
  | false => cases sfn <;> exact traceApp_emit _
  | true =>
      cases sfn with
      | fn f =>
          show TraceApp (dispatch cfg f name args >>= _)
          refine traceApp_bind (traceApp_dispatch cfg f name args) (fun r => ?_)
          refine traceApp_bind (traceApp_stResolve _) (fun preFunc => ?_)
          refine traceApp_bind (traceApp_hookIf hrec _ _ _) (fun _ => ?_)
          refine traceApp_bind (traceApp_emit _) (fun _ => ?_)
          refine traceApp_bind (traceApp_runRunner _ _) (fun doneArg => ?_)
          exact traceApp_detach (traceApp_completion hrec doneArg name snm args)
      | obj es => exact traceApp_emit _
      | str s => exact traceApp_emit _
      | num n => exact traceApp_emit _
      | boolV b => exact traceApp_emit _
      | null => exact traceApp_emit _
      | undefined => exact traceApp_emit _

theorem traceApp_executeF (cfg : Config) :
    ∀ (fuel : Nat) (name : String) (args : Args),
      TraceApp (executeF cfg fuel name args) := by
  intro fuel
  induction fuel with
  | zero => intro name args; exact traceApp_pure _
  | succ n ih =>
      intro name args
      show TraceApp (stResolve name >>= _)
      refine traceApp_bind (traceApp_stResolve _) (fun fn0 => ?_)
      refine traceApp_bind traceApp_getNs (fun ns => ?_)
      exact traceApp_execSelected cfg (fun nm a => ih nm a) _ name args

/-- `detach` always reports success: a rejection in a computation nobody
awaits never reaches the caller. -/
theorem detach_fst (m : M Unit) (st : EngineSt) : (detach m st).1 = .ok () := by
  have hd : detach m st
      = (match m st with
         | (.ok _, st') => (.ok (), st')
         | (.error e, st') =>
             (.ok (), { st' with trace := st'.trace ++ [.unhandledRejection e] })) := rfl
  rw [hd]
  rcases m st with ⟨r, st₁⟩
  cases r <;> rfl

/-! ## Engine infrastructure: runs that never log not-found -/

/-- The computation adds no `notFound` event to a trace free of them. -/
def NoNF {α : Type} (m : M α) : Prop :=
  ∀ st : EngineSt, (∀ x, Event.notFound x ∉ st.trace) →
    ∀ x, Event.notFound x ∉ ((m st).2).trace

theorem noNF_pure {α : Type} (a : α) : NoNF (pure (f := M) a) :=
  fun _ h => h

theorem noNF_bind {α β : Type} {m : M α} {f : α → M β}
    (hm : NoNF m) (hf : ∀ a, NoNF (f a)) : NoNF (m >>= f) := by
  intro st hst
  have hb : (m >>= f) st
      = (match m st with
         | (.ok a, st') => f a st'
         | (.error e, st') => (.error e, st')) := rfl
  rw [hb]
  rcases hms : m st with ⟨r, st₁⟩
  have h1 : ∀ x, Event.notFound x ∉ st₁.trace := by
    have h := hm st hst; rw [hms] at h; exact h
  cases r with
  | ok a => exact hf a st₁ h1
  | error e => exact h1

theorem noNF_emit {e : Event} (he : ∀ x, e ≠ .notFound x) : NoNF (emit e) := by
  intro st hst x hx
  rcases List.mem_append.mp hx with h | h
  · exact hst x h
  · exact he x (List.mem_singleton.mp h).symm

theorem noNF_throw {α : Type} (e : String) : NoNF (throwM (α := α) e) :=
  fun _ h => h

theorem noNF_getNs : NoNF getNs := fun _ h => h

theorem noNF_stResolve (key : String) : NoNF (stResolve key) := fun _ h => h

theorem noNF_detach {m : M Unit} (hm : NoNF m) : NoNF (detach m) := by
  intro st hst
  have hd : detach m st
      = (match m st with
         | (.ok _, st') => (.ok (), st')
         | (.error e, st') =>
             (.ok (), { st' with trace := st'.trace ++ [.unhandledRejection e] })) := rfl
  rw [hd]
  rcases hms : m st with ⟨r, st₁⟩
  have h1 : ∀ x, Event.notFound x ∉ st₁.trace := by
    have h := hm st hst; rw [hms] at h; exact h
  cases r with
  | ok a => exact h1
  | error e =>
      intro x hx
      rcases List.mem_append.mp hx with h | h
      · exact h1 x h
      · exact Event.noConfusion (List.mem_singleton.mp h)

theorem noNF_ite {c : Prop} [Decidable c] {m₁ m₂ : M Unit}
    (h₁ : NoNF m₁) (h₂ : NoNF m₂) : NoNF (if c then m₁ else m₂) := by
  by_cases hc : c
  · rw [if_pos hc]; exact h₁
  · rw [if_neg hc]; exact h₂

theorem noNF_hookIf {recur : String → Args → M Unit}
    (hrec : ∀ nm a, NoNF (recur nm a)) (hname : String) (hfn : JSVal)
    (args : Args) : NoNF (hookIf recur hname hfn args) := by
  unfold hookIf
  exact noNF_ite (hrec _ _) (noNF_pure _)

theorem noNF_logErrArg (doneArg : Option String) : NoNF (logErrArg doneArg) := by
  unfold logErrArg
  cases doneArg with
  | some e => exact noNF_emit (fun x h => Event.noConfusion h)
  | none => exact noNF_pure _

theorem noNF_invokeProducer (f : FnVal) (name : String) (args : Args)
    (w : Bool) : NoNF (invokeProducer f name args w) := by
  unfold invokeProducer
  refine noNF_bind (noNF_emit (fun x h => Event.noConfusion h)) (fun _ => ?_)
  cases f.throws with
  | none => exact noNF_pure _
  | some e => exact noNF_throw e

theorem noNF_dispatch (cfg : Config) (f : FnVal) (name : String)
    (args : Args) : NoNF (dispatch cfg f name args) := by
  unfold dispatch
  split
  · exact noNF_invokeProducer f name args _
  · exact noNF_invokeProducer f name args false
  · exact noNF_pure _

theorem noNF_runRunner (rs : RunState) (args : Args) :
    NoNF (runRunner rs args) := by
  unfold runRunner
  cases rs with
  | wrapped f =>
      exact noNF_bind (noNF_emit (fun x h => Event.noConfusion h))
        (fun _ => noNF_pure _)
  | produced r =>
      refine noNF_bind (noNF_emit (fun x h => Event.noConfusion h)) (fun _ => ?_)
      split
      · exact noNF_pure _
      · exact noNF_pure _
      · exact noNF_throw _
      · exact noNF_pure _
  | invalid msg => exact noNF_pure _

theorem noNF_completion {recur : String → Args → M Unit}
    (hrec : ∀ nm a, NoNF (recur nm a)) (doneArg : Option String)
    (name fnName : String) (args : Args) :
    NoNF (completion recur doneArg name fnName args) := by
  unfold completion
  refine noNF_bind (noNF_logErrArg doneArg) (fun _ => ?_)
  refine noNF_bind (noNF_emit (fun x h => Event.noConfusion h)) (fun _ => ?_)
  refine noNF_bind (noNF_stResolve _) (fun p => ?_)
  exact noNF_hookIf hrec _ _ _

/-- The main (found) branch of the engine never logs not-found itself. -/
theorem noNF_execSelected_found (cfg : Config) {recur : String → Args → M Unit}
    (hrec : ∀ nm a, NoNF (recur nm a)) (f : FnVal) (snm name : String)
    (args : Args) : NoNF (execSelected cfg recur ⟨.fn f, snm, true⟩ name args) := by
  show NoNF (dispatch cfg f name args >>= _)
  refine noNF_bind (noNF_dispatch cfg f name args) (fun r => ?_)
  refine noNF_bind (noNF_stResolve _) (fun preFunc => ?_)
  refine noNF_bind (noNF_hookIf hrec _ _ _) (fun _ => ?_)
  refine noNF_bind (noNF_emit (fun x h => Event.noConfusion h)) (fun _ => ?_)
  refine noNF_bind (noNF_runRunner _ _) (fun doneArg => ?_)
  exact noNF_detach (noNF_completion hrec doneArg name snm args)

/-- With a plain-callable configured runner, no execution — at any fuel, on
any namespace, for any name — ever logs not-found: selection always finds
the runner, at every recursion level. -/
theorem noNF_executeF (f : FnVal) (opts : JSVal) :
    ∀ (fuel : Nat) (name : String) (args : Args),
      NoNF (executeF ⟨.func f, opts⟩ fuel name args) := by
  intro fuel
  induction fuel with
  | zero => intro name args; exact noNF_pure _
  | succ n ih =>
      intro name args
      show NoNF (stResolve name >>= _)
      refine noNF_bind (noNF_stResolve _) (fun fn0 => ?_)
      refine noNF_bind noNF_getNs (fun ns => ?_)
      exact noNF_execSelected_found ⟨.func f, opts⟩ (fun nm a => ih nm a)
        f name name args

/-! ## Path lemmas: one step of the engine, by dispatch shape -/

/-- A function that resolved but was not found leads to the not-found log. -/
theorem execSelected_not_found (cfg : Config) (recur : String → Args → M Unit)
    (sel : Selection) (name : String) (args : Args)
    (h : sel.fnExists = false) :
    execSelected cfg recur sel name args = emit (.notFound name) := by
  obtain ⟨sfn, snm, sex⟩ := sel
  cases sex with
  | false => cases sfn <;> rfl
  | true => cases h

/-- Plain-task arity dispatch: neither 3 nor 4 parameters means the lazy
wrapper, with no invocation yet. -/
theorem dispatch_default (cfg : Config) (f : FnVal) (name : String)
    (args : Args) (h3 : f.arity ≠ 3) (h4 : f.arity ≠ 4) :
    dispatch cfg f name args = pure (.wrapped f) := by
  unfold dispatch
  split
  · next harity => exact absurd harity h4
  · next harity => exact absurd harity h3
  · rfl

/-- The options flag a 3- or 4-parameter function is invoked with. -/
def wOf (cfg : Config) (f : FnVal) : Bool :=
  if f.arity = 4 then optionsNonempty cfg.options else false

/-- Runner-producing arity dispatch: 3 or 4 parameters invoke the function
immediately, with the options flag `wOf`. -/
theorem dispatch_producer (cfg : Config) (f : FnVal) (name : String)
    (args : Args) (h : f.arity = 3 ∨ f.arity = 4) :
    dispatch cfg f name args = invokeProducer f name args (wOf cfg f) := by
  unfold dispatch wOf
  cases h with
  | inl h3 => rw [h3]; rfl
  | inr h4 => rw [h4]; rfl

/-- A falsy hook resolution skips the recursive hook execution. -/
theorem hookIf_false {recur : String → Args → M Unit} {hname : String}
    {hfn : JSVal} {args : Args} (h : hfn.truthy = false) :
    hookIf recur hname hfn args = pure () := by
  simp [hookIf, h]

/-- One full engine step for a found plain-shaped task with no resolvable
pre-hook: the task function is invoked with the argument bag after the
`Starting` log, and its outcome (`throws`) is delivered as the completion
callback's error argument. -/
theorem exec_plain_path (cfg : Config) (recur : String → Args → M Unit)
    (f : FnVal) (snm name : String) (args : Args) (ns₂ : JSVal)
    (h3 : f.arity ≠ 3) (h4 : f.arity ≠ 4)
    (hpre : (resolveTaskM ns₂ (getFnName snm "pre") ':').1.truthy = false) :
    execSelected cfg recur ⟨.fn f, snm, true⟩ name args ⟨ns₂, []⟩
      = detach (completion recur f.throws name snm args)
          ⟨(resolveTaskM ns₂ (getFnName snm "pre") ':').2,
           [.starting name, .callTask f.id args]⟩ := by
  show (dispatch cfg f name args >>= fun r =>
      stResolve (getFnName snm "pre") >>= fun preFunc =>
      hookIf recur (getFnName snm "pre") preFunc args >>= fun _ =>
      emit (.starting name) >>= fun _ =>
      runRunner (settleRunner r) args >>= fun doneArg =>
      detach (completion recur doneArg name snm args)) ⟨ns₂, []⟩ = _
  rw [dispatch_default cfg f name args h3 h4]
  show (hookIf recur (getFnName snm "pre")
        (resolveTaskM ns₂ (getFnName snm "pre") ':').1 args >>= fun _ =>
      emit (.starting name) >>= fun _ =>
      runRunner (settleRunner (.wrapped f)) args >>= fun doneArg =>
      detach (completion recur doneArg name snm args))
      ⟨(resolveTaskM ns₂ (getFnName snm "pre") ':').2, []⟩ = _
  rw [hookIf_false hpre]
  rfl

/-- One full engine step for a found 3/4-parameter function (no resolvable
pre-hook) whose produced value settles to a non-callable: the producer is
invoked first, the replacement thrower delivers the typed message to the
completion callback. -/
theorem exec_producer_invalid_path (cfg : Config) (recur : String → Args → M Unit)
    (f : FnVal) (snm name : String) (args : Args) (ns₂ : JSVal) (t : PrimTy)
    (hd : f.arity = 3 ∨ f.arity = 4) (hth : f.throws = none)
    (hset : settle f.ret = .inr t)
    (hpre : (resolveTaskM ns₂ (getFnName snm "pre") ':').1.truthy = false) :
    execSelected cfg recur ⟨.fn f, snm, true⟩ name args ⟨ns₂, []⟩
      = detach (completion recur
            (some ("Expected return value of runner function to be a function, got "
              ++ beforeTypeName t)) name snm args)
          ⟨(resolveTaskM ns₂ (getFnName snm "pre") ':').2,
           [.callProducer f.id name args (wOf cfg f), .starting name]⟩ := by
  show (dispatch cfg f name args >>= fun r =>
      stResolve (getFnName snm "pre") >>= fun preFunc =>
      hookIf recur (getFnName snm "pre") preFunc args >>= fun _ =>
      emit (.starting name) >>= fun _ =>
      runRunner (settleRunner r) args >>= fun doneArg =>
      detach (completion recur doneArg name snm args)) ⟨ns₂, []⟩ = _
  rw [dispatch_producer cfg f name args hd]
  unfold invokeProducer
  rw [hth]
  show (hookIf recur (getFnName snm "pre")
        (resolveTaskM ns₂ (getFnName snm "pre") ':').1 args >>= fun _ =>
      emit (.starting name) >>= fun _ =>
      runRunner (settleRunner (.rv f.ret)) args >>= fun doneArg =>
      detach (completion recur doneArg name snm args))
      ⟨(resolveTaskM ns₂ (getFnName snm "pre") ':').2,
       [.callProducer f.id name args (wOf cfg f)]⟩ = _
  rw [hookIf_false hpre]
  show (runRunner (settleRunner (.rv f.ret)) args >>= fun doneArg =>
      detach (completion recur doneArg name snm args))
      ⟨(resolveTaskM ns₂ (getFnName snm "pre") ':').2,
       [.callProducer f.id name args (wOf cfg f), .starting name]⟩ = _
  simp only [settleRunner]
  rw [hset]
  rfl

/-- The first step of `execute`: resolve the task, then run the selection
outcome from the resolved namespace. -/
theorem runTask_step (cfg : Config) (n : Nat) (ns : JSVal) (name : String)
    (args : Args) :
    runTask cfg (n + 1) ns name args
      = execSelected cfg (executeF cfg n)
          (selectFn cfg (resolveTaskM ns name ':').1 (resolveTaskM ns name ':').2
            name args)
          name args ⟨(resolveTaskM ns name ':').2, []⟩ := rfl

/-- A completion callback that received an error: it logs the error, logs
the finish line, and whatever the (detached) post-hook phase adds comes
after those two in the trace. -/
theorem detach_completion_some_trace {recur : String → Args → M Unit}
    (hrec : ∀ nm a, TraceApp (recur nm a)) (e name snm : String) (args : Args)
    (st : EngineSt) :
    ∃ rest, ((detach (completion recur (some e) name snm args) st).2).trace
      = st.trace ++ [.errorLog e, .finished name] ++ rest := by
  have hc : completion recur (some e) name snm args st
      = hookIf recur (getFnName snm "post")
          (resolveTaskM st.ns (getFnName snm "post") ':').1 args
          ⟨(resolveTaskM st.ns (getFnName snm "post") ':').2,
           (st.trace ++ [.errorLog e]) ++ [.finished name]⟩ := rfl
  obtain ⟨t, ht⟩ := traceApp_hookIf hrec (getFnName snm "post")
      (resolveTaskM st.ns (getFnName snm "post") ':').1 args
      ⟨(resolveTaskM st.ns (getFnName snm "post") ':').2,
       (st.trace ++ [.errorLog e]) ++ [.finished name]⟩
  have hd : detach (completion recur (some e) name snm args) st
      = (match completion recur (some e) name snm args st with
         | (.ok _, st') => (.ok (), st')
         | (.error e', st') =>
             (.ok (), { st' with trace := st'.trace ++ [.unhandledRejection e'] })) := rfl
  rw [hd, hc]
  rcases hres : hookIf recur (getFnName snm "post")
      (resolveTaskM st.ns (getFnName snm "post") ':').1 args
      ⟨(resolveTaskM st.ns (getFnName snm "post") ':').2,
       (st.trace ++ [.errorLog e]) ++ [.finished name]⟩ with ⟨r, st₂⟩
  rw [hres] at ht
  rw [hres]
  have ht2 : st₂.trace
      = st.trace ++ [Event.errorLog e] ++ [Event.finished name] ++ t := ht
  cases r with
  | ok u =>
      refine ⟨t, ?_⟩
      show st₂.trace = st.trace ++ [Event.errorLog e, Event.finished name] ++ t
      rw [ht2]; simp
  | error e' =>
      refine ⟨t ++ [.unhandledRejection e'], ?_⟩
      show st₂.trace ++ [Event.unhandledRejection e']
          = st.trace ++ [Event.errorLog e, Event.finished name]
            ++ (t ++ [Event.unhandledRejection e'])
      rw [ht2]; simp

/-! ## Resolver lemmas -/

/-- What `resolveAccept` returns, by case on the walked-to value: any
mapping is accepted (collapsing a truthy `_`, flattening an object
`default`); outside mappings only callables pass. -/
theorem resolveAccept_fst (o : JSVal) (props : List String) (task : JSVal) :
    (resolveAccept o props task).1 =
      (if task.isObject then
        (if (getProp task "_").truthy then getProp task "_"
         else if (getProp task "default").isObject then
           setPropVal task "default" (getProp (getProp task "default") "_")
         else task)
      else if task.isFn then task else .boolV false) := by
  cases task with
  | obj es =>
      by_cases hu : (getProp (JSVal.obj es) "_").truthy
      · simp [resolveAccept, JSVal.isObject, hu]
      · by_cases hd : (getProp (JSVal.obj es) "default").isObject
        all_goals
          simp only [JSVal.isObject] at hd
          simp [resolveAccept, JSVal.isObject, hu, hd]
  | fn f => simp [resolveAccept, JSVal.isObject, JSVal.isFn, validTaskValue, getProp]
  | str s =>
      by_cases hs : s = "" <;>
        simp [resolveAccept, JSVal.isObject, JSVal.isFn, validTaskValue, getProp, hs]
  | num n => simp [resolveAccept, JSVal.isObject, JSVal.isFn, validTaskValue, getProp]
  | boolV b => simp [resolveAccept, JSVal.isObject, JSVal.isFn, validTaskValue, getProp]
  | null => simp [resolveAccept, JSVal.isObject, JSVal.isFn, validTaskValue, getProp]
  | undefined => simp [resolveAccept, JSVal.isObject, JSVal.isFn, validTaskValue, getProp]

/-- The namespace `resolveAccept` hands back is the original, except in the
default-flattening branch, where it is the original with the walked-to node
replaced by the returned (flattened) value. -/
theorem resolveAccept_snd (o : JSVal) (props : List String) (task : JSVal) :
    (resolveAccept o props task).2 = o ∨
    (resolveAccept o props task).2
      = updatePathSet o props (resolveAccept o props task).1 := by
  unfold resolveAccept
  by_cases h1 : (!task.isObject && !validTaskValue task) = true
  · rw [if_pos h1]; left; rfl
  · rw [if_neg h1]
    by_cases h2 : (task.isObject && (getProp task "_").truthy) = true
    · rw [if_pos h2]; left; rfl
    · rw [if_neg h2]
      by_cases h3 : (getProp task "default").isObject = true
      · rw [if_pos h3]; right; rfl
      · rw [if_neg h3]; left; rfl

/-! ## Splitting and joining lemmas -/

theorem splitAux_append (sep : Char) (xs ys : List Char) (acc : List Char) :
    splitAux sep (xs ++ sep :: ys) acc
      = splitAux sep xs acc ++ splitAux sep ys [] := by
  induction xs generalizing acc with
  | nil => simp [splitAux]
  | cons c cs ih =>
      by_cases h : c = sep <;> simp [splitAux, h, ih]

theorem splitAux_noSep (sep : Char) (xs : List Char) (acc : List Char)
    (h : sep ∉ xs) : splitAux sep xs acc = [acc.reverse ++ xs] := by
  induction xs generalizing acc with
  | nil => simp [splitAux]
  | cons c cs ih =>
      have hc : ¬ c = sep := fun e => h (e ▸ List.mem_cons_self c cs)
      have hcs : sep ∉ cs := fun m => h (List.mem_cons_of_mem c m)
      simp [splitAux, hc, ih (c :: acc) hcs]

theorem splitOnC_noSep (sep : Char) (s : String) (h : sep ∉ s.data) :
    splitOnC s sep = [s] := by
  simp [splitOnC, splitAux_noSep sep s.data [] h]

theorem splitOnC_join (sep : Char) (ss : List String) (hne : ss ≠ [])
    (hfree : ∀ s ∈ ss, sep ∉ s.data) :
    splitOnC (joinSep sep ss) sep = ss := by
  induction ss with
  | nil => cases hne rfl
  | cons s rest ih =>
      cases rest with
      | nil =>
          exact splitOnC_noSep sep s (hfree s (List.mem_cons_self s []))
      | cons t ts =>
          have hs : sep ∉ s.data := hfree s (List.mem_cons_self s (t :: ts))
          have hrest : ∀ u ∈ t :: ts, sep ∉ u.data :=
            fun u hu => hfree u (List.mem_cons_of_mem s hu)
          have hdata : (joinSep sep (s :: t :: ts)).data
              = s.data ++ sep :: (joinSep sep (t :: ts)).data := by
            show (s ++ sep.toString ++ joinSep sep (t :: ts)).data = _
            simp [String.data_append, Char.toString]
          unfold splitOnC
          rw [hdata, splitAux_append, splitAux_noSep sep s.data [] hs]
          have := ih (by simp) hrest
          unfold splitOnC at this
          simpa using this

/-! ## Concrete fixtures

A plain (args-only) task that succeeds, a plain task that throws, and the
namespaces the end-to-end claims exercise.  A `ret` of `nonFn undefT`
records that a plain task's return value (`undefined` here) is never
consulted by the engine in task position. -/

def plainTask (i : String) : JSVal := .fn ⟨i, 1, none, .nonFn .undefT⟩

def throwingTask (i : String) (e : String) : JSVal := .fn ⟨i, 1, some e, .nonFn .undefT⟩

/-- The default configuration: no custom runner, empty options. -/
def noRunnerCfg : Config := ⟨.noRunner, .obj []⟩

/-- `{ build: fn1, prebuild: fn2, postbuild: fn3 }` with plain tasks. -/
def buildNs : JSVal :=
  .obj [("build", plainTask "fn1"), ("prebuild", plainTask "fn2"),
        ("postbuild", plainTask "fn3")]

/-! ## Claims -/

/-- C9: for every task name given as non-empty colon-free segments, the
hook-name deriver prefixes only the final segment and leaves the namespace
segments untouched; concretely `hookName("a:b","pre") = "a:preb"` and
`hookName("task","post") = "posttask"`. -/
theorem claim_C9_hook_name_derivation :
    (∀ (ss : List String) (pre : String), ss ≠ [] → (∀ s ∈ ss, ':' ∉ s.data) →
      getFnName (joinSep ':' ss) pre ':'
        = joinSep ':' (ss.dropLast ++ [pre ++ ss.getLast?.getD ""])) ∧
    getFnName "a:b" "pre" = "a:preb" ∧ getFnName "task" "post" = "posttask" := by
  refine ⟨fun ss pre hne hfree => ?_, rfl, rfl⟩
  unfold getFnName
  rw [splitOnC_join ':' ss hne hfree]

/-- C9 witness: the general part applied at the segments `["a", "b"]` with
the prefix `"pre"`. -/
theorem claim_C9_hook_name_derivation_witness :
    getFnName (joinSep ':' ["a", "b"]) "pre" ':'
      = joinSep ':' (["a", "b"].dropLast ++ ["pre" ++ ["a", "b"].getLast?.getD ""]) :=
  claim_C9_hook_name_derivation.1 ["a", "b"] "pre" (by decide) (by decide)

/-- C8: runner selection is first-match-wins — a callable configured runner
is always selected and marked found, whatever the namespace resolves; an
object runner's callable `default` is selected with "found" decided by
`taskExists(ns, name, args, options)` when present and true otherwise; and
with no usable configured runner a callable resolved task is selected and
marked found. -/
theorem claim_C8_runner_selection_order :
    (∀ (f : FnVal) (opts fn0 ns : JSVal) (name : String) (args : Args),
      selectFn ⟨.func f, opts⟩ fn0 ns name args = ⟨.fn f, name, true⟩) ∧
    (∀ (d : FnVal) (p : JSVal → String → Args → JSVal → Bool) (opts fn0 ns : JSVal)
        (name : String) (args : Args),
      selectFn ⟨.objDefault d (some p), opts⟩ fn0 ns name args
        = ⟨.fn d, name, p ns name args opts⟩) ∧
    (∀ (d : FnVal) (opts fn0 ns : JSVal) (name : String) (args : Args),
      selectFn ⟨.objDefault d none, opts⟩ fn0 ns name args = ⟨.fn d, name, true⟩) ∧
    (∀ (g : FnVal) (opts ns : JSVal) (name : String) (args : Args),
      selectFn ⟨.noRunner, opts⟩ (.fn g) ns name args = ⟨.fn g, name, true⟩) :=
  ⟨fun _ _ _ _ _ _ => rfl, fun _ _ _ _ _ _ _ => rfl,
   fun _ _ _ _ _ _ => rfl, fun _ _ _ _ _ => rfl⟩

/-- C1: on `{ build: fn1, prebuild: fn2, postbuild: fn3 }`,
`runTask(ns, "build", {x:1})` runs the pre-hook to completion (its whole
execution, through its logged finish), then the main task, then the
post-hook after the main completion callback's finish log, calling
`fn2`, `fn1`, `fn3` in that order, each exactly once, with `args.x = 1`,
and the returned promise resolves. -/
theorem claim_C1_pre_main_post_order :
    runTask noRunnerCfg 3 buildNs "build" [("x", 1)]
      = (.ok (), ⟨buildNs,
          [.starting "prebuild", .callTask "fn2" [("x", 1)], .finished "prebuild",
           .starting "build", .callTask "fn1" [("x", 1)], .finished "build",
           .starting "postbuild", .callTask "fn3" [("x", 1)], .finished "postbuild"]⟩) ∧
    (runTask noRunnerCfg 3 buildNs "build" [("x", 1)]).2.trace.count
        (.callTask "fn1" [("x", 1)]) = 1 ∧
    (runTask noRunnerCfg 3 buildNs "build" [("x", 1)]).2.trace.count
        (.callTask "fn2" [("x", 1)]) = 1 ∧
    (runTask noRunnerCfg 3 buildNs "build" [("x", 1)]).2.trace.count
        (.callTask "fn3" [("x", 1)]) = 1 :=
  ⟨rfl, by decide, by decide, by decide⟩

/-- C2: whenever runner selection finds nothing runnable, `execute` logs
exactly the `Task not found` error and returns: the promise resolves (no
error channel), and neither the pre-hook nor the post-hook runs — the trace
holds nothing but the not-found line. -/
theorem claim_C2_not_found_resolves_without_hooks :
    ∀ (cfg : Config) (n : Nat) (ns : JSVal) (name : String) (args : Args),
      (selectFn cfg (resolveTaskM ns name ':').1 (resolveTaskM ns name ':').2
          name args).fnExists = false →
      runTask cfg (n + 1) ns name args
        = (.ok (), ⟨(resolveTaskM ns name ':').2, [.notFound name]⟩) := by
  intro cfg n ns name args h
  rw [runTask_step, execSelected_not_found _ _ _ _ _ h]
  rfl

/-- C2 witness: `runTask` on an empty namespace and the name `"missing"`. -/
theorem claim_C2_not_found_resolves_without_hooks_witness :
    runTask noRunnerCfg 1 (JSVal.obj []) "missing" []
      = (.ok (), ⟨(resolveTaskM (JSVal.obj []) "missing" ':').2,
          [.notFound "missing"]⟩) :=
  claim_C2_not_found_resolves_without_hooks noRunnerCfg 0 (JSVal.obj [])
    "missing" [] (by decide)

/-- C4: a plain-shaped task whose body throws (or rejects) has the error
caught by the completion bridge and handed to the completion callback: the
error is logged, the finish line still follows, the post-hook phase still
runs (inside the detached callback), and the overall promise resolves.
Concretely, `{ task: throwing, posttask: p }` logs the error and then runs
the post-hook to completion after the failure. -/
theorem claim_C4_task_error_caught_logged_post_runs :
    (∀ (cfg : Config) (n : Nat) (ns : JSVal) (name snm : String) (args : Args)
        (f : FnVal) (e : String),
      selectFn cfg (resolveTaskM ns name ':').1 (resolveTaskM ns name ':').2
          name args = ⟨.fn f, snm, true⟩ →
      f.arity ≠ 3 → f.arity ≠ 4 → f.throws = some e →
      (resolveTaskM (resolveTaskM ns name ':').2
          (getFnName snm "pre") ':').1.truthy = false →
      runTask cfg (n + 1) ns name args
          = detach (completion (executeF cfg n) (some e) name snm args)
              ⟨(resolveTaskM (resolveTaskM ns name ':').2
                  (getFnName snm "pre") ':').2,
               [.starting name, .callTask f.id args]⟩ ∧
      (runTask cfg (n + 1) ns name args).1 = .ok () ∧
      (∃ rest, (runTask cfg (n + 1) ns name args).2.trace
          = [.starting name, .callTask f.id args, .errorLog e, .finished name]
            ++ rest)) ∧
    (runTask noRunnerCfg 2
        (JSVal.obj [("task", throwingTask "t" "boom"), ("posttask", plainTask "p")])
        "task" [("x", 1)]
      = (.ok (), ⟨JSVal.obj [("task", throwingTask "t" "boom"),
                            ("posttask", plainTask "p")],
          [.starting "task", .callTask "t" [("x", 1)], .errorLog "boom",
           .finished "task", .starting "posttask", .callTask "p" [("x", 1)],
           .finished "posttask"]⟩)) := by
  constructor
  · intro cfg n ns name snm args f e hsel h3 h4 hth hpre
    have hpath := exec_plain_path cfg (executeF cfg n) f snm name args
        (resolveTaskM ns name ':').2 h3 h4 hpre
    rw [hth] at hpath
    have heq : runTask cfg (n + 1) ns name args
        = detach (completion (executeF cfg n) (some e) name snm args)
            ⟨(resolveTaskM (resolveTaskM ns name ':').2
                (getFnName snm "pre") ':').2,
             [.starting name, .callTask f.id args]⟩ := by
      rw [runTask_step, hsel, hpath]
    refine ⟨heq, ?_, ?_⟩
    · rw [heq]; exact detach_fst _ _
    · rw [heq]
      obtain ⟨rest, hr⟩ := detach_completion_some_trace
          (fun nm a => traceApp_executeF cfg n nm a) e name snm args
          ⟨(resolveTaskM (resolveTaskM ns name ':').2
              (getFnName snm "pre") ':').2,
           [.starting name, .callTask f.id args]⟩
      exact ⟨rest, by rw [hr]; simp⟩
  · rfl

/-- C4 witness: the general part applied to the namespace
`{ task: throwing, posttask: p }` at `"task"` with the error `"boom"`. -/
theorem claim_C4_task_error_caught_logged_post_runs_witness :
    (runTask noRunnerCfg 1
        (JSVal.obj [("task", throwingTask "t" "boom"), ("posttask", plainTask "p")])
        "task" []).1 = .ok () ∧
    (∃ rest, (runTask noRunnerCfg 1
        (JSVal.obj [("task", throwingTask "t" "boom"), ("posttask", plainTask "p")])
        "task" []).2.trace
      = [.starting "task", .callTask "t" [], .errorLog "boom", .finished "task"]
        ++ rest) := by
  have h := claim_C4_task_error_caught_logged_post_runs.1 noRunnerCfg 0
      (JSVal.obj [("task", throwingTask "t" "boom"), ("posttask", plainTask "p")])
      "task" "task" [] ⟨"t", 1, some "boom", .nonFn .undefT⟩ "boom"
      rfl (by decide) (by decide) rfl rfl
  exact ⟨h.2.1, h.2.2⟩

/-- C5: when the value produced by the selected 3/4-parameter function —
after awaiting it through any promise layers (`settle` strips them) — is not
callable, the engine substitutes a thrower whose message names the produced
value's actual type, and that failure is delivered through the completion
callback and logged, with the run still resolving; the name is the literal
`"null"` for `null` (whose `typeof` would be `"object"`) and the dynamic
type name otherwise. -/
theorem claim_C5_invalid_runner_typed_message :
    (∀ (cfg : Config) (n : Nat) (ns : JSVal) (name snm : String) (args : Args)
        (f : FnVal) (t : PrimTy),
      selectFn cfg (resolveTaskM ns name ':').1 (resolveTaskM ns name ':').2
          name args = ⟨.fn f, snm, true⟩ →
      f.arity = 3 ∨ f.arity = 4 → f.throws = none → settle f.ret = .inr t →
      (resolveTaskM (resolveTaskM ns name ':').2
          (getFnName snm "pre") ':').1.truthy = false →
      (runTask cfg (n + 1) ns name args).1 = .ok () ∧
      (∃ rest, (runTask cfg (n + 1) ns name args).2.trace
          = [.callProducer f.id name args (wOf cfg f), .starting name,
             .errorLog ("Expected return value of runner function to be a function, got "
               ++ beforeTypeName t),
             .finished name] ++ rest)) ∧
    (∀ v : RVal, settle (.promiseR v) = settle v) ∧
    beforeTypeName .nullT = "null" ∧ beforeTypeName .numT = "number" ∧
    beforeTypeName .strT = "string" ∧ beforeTypeName .boolT = "boolean" ∧
    beforeTypeName .undefT = "undefined" ∧ beforeTypeName .objT = "object" := by
  refine ⟨?_, fun v => rfl, rfl, rfl, rfl, rfl, rfl, rfl⟩
  intro cfg n ns name snm args f t hsel hd hth hset hpre
  have hpath := exec_producer_invalid_path cfg (executeF cfg n) f snm name args
      (resolveTaskM ns name ':').2 t hd hth hset hpre
  have heq : runTask cfg (n + 1) ns name args
      = detach (completion (executeF cfg n)
          (some ("Expected return value of runner function to be a function, got "
            ++ beforeTypeName t)) name snm args)
          ⟨(resolveTaskM (resolveTaskM ns name ':').2
              (getFnName snm "pre") ':').2,
           [.callProducer f.id name args (wOf cfg f), .starting name]⟩ := by
    rw [runTask_step, hsel, hpath]
  refine ⟨by rw [heq]; exact detach_fst _ _, ?_⟩
  rw [heq]
  obtain ⟨rest, hr⟩ := detach_completion_some_trace
      (fun nm a => traceApp_executeF cfg n nm a)
      ("Expected return value of runner function to be a function, got "
        ++ beforeTypeName t) name snm args
      ⟨(resolveTaskM (resolveTaskM ns name ':').2
          (getFnName snm "pre") ':').2,
       [.callProducer f.id name args (wOf cfg f), .starting name]⟩
  exact ⟨rest, by rw [hr]; simp⟩

/-- C5 witness: an arity-3 runner returning a promise that resolves to
`null` yields the logged message naming the literal `"null"`. -/
theorem claim_C5_invalid_runner_typed_message_witness :
    (runTask noRunnerCfg 1
        (JSVal.obj [("build", .fn ⟨"prod", 3, none, .promiseR (.nonFn .nullT)⟩)])
        "build" []).1 = .ok () ∧
    (∃ rest, (runTask noRunnerCfg 1
        (JSVal.obj [("build", .fn ⟨"prod", 3, none, .promiseR (.nonFn .nullT)⟩)])
        "build" []).2.trace
      = [.callProducer "prod" "build" [] false, .starting "build",
         .errorLog "Expected return value of runner function to be a function, got null",
         .finished "build"] ++ rest) := by
  have h := claim_C5_invalid_runner_typed_message.1 noRunnerCfg 0
      (JSVal.obj [("build", .fn ⟨"prod", 3, none, .promiseR (.nonFn .nullT)⟩)])
      "build" "build" [] ⟨"prod", 3, none, .promiseR (.nonFn .nullT)⟩ .nullT
      rfl (Or.inl rfl) rfl rfl rfl
  exact h

/-- C3 counterexample: `resolveTask` does not reject invalid mappings.
Resolving `{ build: { x: 1 } }` at `"build"` returns the non-empty mapping
itself — `_` undefined, no callable default — instead of the claimed
`false`; resolving `{ t: { _: 0 } }` returns the mapping whose `_` entry is
a non-callable value; and resolving `{ t: { _: 5 } }` returns the truthy
non-callable `5` itself as the resolved task. -/
theorem claim_C3_counterexample :
    (resolveTaskM (JSVal.obj [("build", JSVal.obj [("x", JSVal.num 1)])]) "build").1
      = JSVal.obj [("x", JSVal.num 1)] ∧
    (resolveTaskM (JSVal.obj [("build", JSVal.obj [("x", JSVal.num 1)])]) "build").1
      ≠ JSVal.boolV false ∧
    (resolveTaskM (JSVal.obj [("t", JSVal.obj [("_", JSVal.num 0)])]) "t").1
      = JSVal.obj [("_", JSVal.num 0)] ∧
    (resolveTaskM (JSVal.obj [("t", JSVal.obj [("_", JSVal.num 5)])]) "t").1
      = JSVal.num 5 :=
  ⟨rfl, fun h => JSVal.noConfusion h, rfl, rfl⟩

/-- C3 amended: `resolveTask` yields `false` exactly for walk results that
are neither mappings nor callable (`validTaskValue` is decisive only for
non-mappings); every mapping is accepted — one with a truthy `_` yields that
`_` even when it is not callable, otherwise the (default-flattened) mapping
itself is returned, non-empty or not, `_`-less or not.  The not-found
outcome for an invalid mapping arises later, in the engine: running
`{ build: { x: 1 } }` logs `Task not found`. -/
theorem claim_C3_amended :
    (∀ (o : JSVal) (key : String) (sep : Char), key ≠ "" →
      (resolveTaskM o key sep).1 =
        (if (walkPath o (splitOnC key sep)).isObject then
          (if (getProp (walkPath o (splitOnC key sep)) "_").truthy then
            getProp (walkPath o (splitOnC key sep)) "_"
          else if (getProp (walkPath o (splitOnC key sep)) "default").isObject then
            setPropVal (walkPath o (splitOnC key sep)) "default"
              (getProp (getProp (walkPath o (splitOnC key sep)) "default") "_")
          else walkPath o (splitOnC key sep))
        else if (walkPath o (splitOnC key sep)).isFn then
          walkPath o (splitOnC key sep)
        else .boolV false)) ∧
    (runTask noRunnerCfg 1 (JSVal.obj [("build", JSVal.obj [("x", JSVal.num 1)])])
        "build" []).2.trace = [.notFound "build"] := by
  refine ⟨fun o key sep hk => ?_, rfl⟩
  unfold resolveTaskM
  rw [if_neg hk]
  exact resolveAccept_fst o (splitOnC key sep) (walkPath o (splitOnC key sep))

/-- C3 amended witness: the general part applied to `{ t: 2 }` at `"t"`
(a walk result that is neither a mapping nor callable, so `false`). -/
theorem claim_C3_amended_witness :
    (resolveTaskM (JSVal.obj [("t", JSVal.num 2)]) "t" ':').1 = JSVal.boolV false :=
  (claim_C3_amended.1 (JSVal.obj [("t", JSVal.num 2)]) "t" ':' (by decide)).trans rfl

/-- The C7 counterexample namespace:
`{ build: { a: fa, default: { _: g } } }`. -/
def flattenNs : JSVal :=
  .obj [("build", .obj [("a", plainTask "fa"),
                        ("default", .obj [("_", plainTask "g")])])]

/-- C7 counterexample: `resolveTask` mutates the namespace.  Resolving
`flattenNs` at `"build"` overwrites `build.default` (the mapping
`{ _: g }`) with the callable `g` in place, so the tree after the call
differs from the tree before it — and `runTask` on the same input finishes
with that mutated tree, not the original. -/
theorem claim_C7_counterexample :
    (resolveTaskM flattenNs "build").2
      = JSVal.obj [("build", JSVal.obj [("a", plainTask "fa"),
                                        ("default", plainTask "g")])] ∧
    (resolveTaskM flattenNs "build").2 ≠ flattenNs ∧
    (runTask noRunnerCfg 2 flattenNs "build" []).2.ns ≠ flattenNs :=
  ⟨rfl,
   fun h => Bool.noConfusion
     (congrArg (fun x => (getProp (getProp x "build") "default").isFn) h),
   fun h => Bool.noConfusion
     (congrArg (fun x => (getProp (getProp x "build") "default").isFn) h)⟩

/-- C7 amended: the namespace is read-only for the core except for
`resolveTask`'s default-flattening — the namespace after a `resolveTask`
call is either unchanged, or the original with the resolved node replaced
by the returned value (that node with its `default` entry overwritten by
the entry's `_`); and `runTask` changes the namespace only through chains
of such `resolveTask` steps. -/
theorem claim_C7_amended :
    (∀ (o : JSVal) (key : String) (sep : Char),
      (resolveTaskM o key sep).2 = o ∨
      (resolveTaskM o key sep).2
        = updatePathSet o (splitOnC key sep) (resolveTaskM o key sep).1) ∧
    (∀ (cfg : Config) (fuel : Nat) (ns : JSVal) (name : String) (args : Args),
      Relation.ReflTransGen flattenStep ns
        (runTask cfg fuel ns name args).2.ns) := by
  constructor
  · intro o key sep
    unfold resolveTaskM
    by_cases hk : key = ""
    · rw [if_pos hk]; left; rfl
    · rw [if_neg hk]
      exact resolveAccept_snd o (splitOnC key sep) (walkPath o (splitOnC key sep))
  · intro cfg fuel ns name args
    exact nsReach_executeF cfg fuel name args ⟨ns, []⟩

/-- A 3-parameter runner-producing task returning a callable runner. -/
def producerTask : JSVal := .fn ⟨"prod", 3, none, .fnR ⟨"r", 1, none, none⟩⟩

/-- `{ build: producer, prebuild: g }`: a runner-shaped main task next to a
plain pre-hook. -/
def producerPreNs : JSVal :=
  .obj [("build", producerTask), ("prebuild", plainTask "g")]

/-- C6 counterexample: the selected 3-parameter runner-producing function is
invoked at the dispatch switch, before the pre-hook runs — the first trace
event of `runTask { build: producer, prebuild: g } "build"` is the
producer's invocation, and the pre-hook's events all come after it. -/
theorem claim_C6_counterexample :
    (runTask noRunnerCfg 3 producerPreNs "build" []).2.trace
      = [.callProducer "prod" "build" [] false, .starting "prebuild",
         .callTask "g" [], .finished "prebuild", .starting "build",
         .callRunner "r", .finished "build"] ∧
    (runTask noRunnerCfg 3 producerPreNs "build" []).2.trace.head?
      = some (.callProducer "prod" "build" [] false) :=
  ⟨rfl, rfl⟩

/-- C6 amended: only the plain-task shape delays every invocation until the
pre-hook has fully settled; a 3/4-parameter runner-producing function is
invoked during dispatch, before the pre-hook, and it is the runner it
returns that is invoked only after the pre-hook settles.  The first
conjunct shows the plain shape reaching the pre-hook with an empty trace
(nothing invoked yet); the second shows the 3/4 shape reaching it with the
producer's invocation already recorded; the third is the plain-shaped
end-to-end run. -/
theorem claim_C6_amended :
    (∀ (cfg : Config) (recur : String → Args → M Unit) (f : FnVal)
        (snm name : String) (args : Args) (ns₂ : JSVal),
      f.arity ≠ 3 → f.arity ≠ 4 →
      execSelected cfg recur ⟨.fn f, snm, true⟩ name args ⟨ns₂, []⟩
        = (hookIf recur (getFnName snm "pre")
              (resolveTaskM ns₂ (getFnName snm "pre") ':').1 args >>= fun _ =>
           emit (.starting name) >>= fun _ =>
           runRunner (.wrapped f) args >>= fun doneArg =>
           detach (completion recur doneArg name snm args))
          ⟨(resolveTaskM ns₂ (getFnName snm "pre") ':').2, []⟩) ∧
    (∀ (cfg : Config) (recur : String → Args → M Unit) (f : FnVal)
        (snm name : String) (args : Args) (ns₂ : JSVal),
      f.arity = 3 ∨ f.arity = 4 → f.throws = none →
      execSelected cfg recur ⟨.fn f, snm, true⟩ name args ⟨ns₂, []⟩
        = (hookIf recur (getFnName snm "pre")
              (resolveTaskM ns₂ (getFnName snm "pre") ':').1 args >>= fun _ =>
           emit (.starting name) >>= fun _ =>
           runRunner (settleRunner (.rv f.ret)) args >>= fun doneArg =>
           detach (completion recur doneArg name snm args))
          ⟨(resolveTaskM ns₂ (getFnName snm "pre") ':').2,
           [.callProducer f.id name args (wOf cfg f)]⟩) ∧
    (runTask noRunnerCfg 3
        (JSVal.obj [("build", plainTask "fn1"), ("prebuild", plainTask "g")])
        "build" []
      = (.ok (), ⟨JSVal.obj [("build", plainTask "fn1"),
                             ("prebuild", plainTask "g")],
          [.starting "prebuild", .callTask "g" [], .finished "prebuild",
           .starting "build", .callTask "fn1" [], .finished "build"]⟩)) := by
  refine ⟨?_, ?_, rfl⟩
  · intro cfg recur f snm name args ns₂ h3 h4
    show (dispatch cfg f name args >>= fun r =>
        stResolve (getFnName snm "pre") >>= fun preFunc =>
        hookIf recur (getFnName snm "pre") preFunc args >>= fun _ =>
        emit (.starting name) >>= fun _ =>
        runRunner (settleRunner r) args >>= fun doneArg =>
        detach (completion recur doneArg name snm args)) ⟨ns₂, []⟩ = _
    rw [dispatch_default cfg f name args h3 h4]
    rfl
  · intro cfg recur f snm name args ns₂ hd hth
    show (dispatch cfg f name args >>= fun r =>
        stResolve (getFnName snm "pre") >>= fun preFunc =>
        hookIf recur (getFnName snm "pre") preFunc args >>= fun _ =>
        emit (.starting name) >>= fun _ =>
        runRunner (settleRunner r) args >>= fun doneArg =>
        detach (completion recur doneArg name snm args)) ⟨ns₂, []⟩ = _
    rw [dispatch_producer cfg f name args hd]
    unfold invokeProducer
    rw [hth]
    rfl

/-- C6 amended witness: both general parts applied at concrete inputs — a
plain arity-1 task and an arity-3 producer, each beside `prebuild`. -/
theorem claim_C6_amended_witness :
    (execSelected noRunnerCfg (executeF noRunnerCfg 1)
        ⟨plainTask "fn1", "build", true⟩ "build" []
        ⟨JSVal.obj [("build", plainTask "fn1"), ("prebuild", plainTask "g")], []⟩
      = (hookIf (executeF noRunnerCfg 1) (getFnName "build" "pre")
            (resolveTaskM (JSVal.obj [("build", plainTask "fn1"),
                ("prebuild", plainTask "g")]) (getFnName "build" "pre") ':').1
            [] >>= fun _ =>
         emit (.starting "build") >>= fun _ =>
         runRunner (.wrapped ⟨"fn1", 1, none, .nonFn .undefT⟩) [] >>= fun doneArg =>
         detach (completion (executeF noRunnerCfg 1) doneArg "build" "build" []))
        ⟨(resolveTaskM (JSVal.obj [("build", plainTask "fn1"),
            ("prebuild", plainTask "g")]) (getFnName "build" "pre") ':').2, []⟩) ∧
    (execSelected noRunnerCfg (executeF noRunnerCfg 1)
        ⟨producerTask, "build", true⟩ "build" [] ⟨producerPreNs, []⟩
      = (hookIf (executeF noRunnerCfg 1) (getFnName "build" "pre")
            (resolveTaskM producerPreNs (getFnName "build" "pre") ':').1
            [] >>= fun _ =>
         emit (.starting "build") >>= fun _ =>
         runRunner (settleRunner (.rv (.fnR ⟨"r", 1, none, none⟩))) [] >>= fun doneArg =>
         detach (completion (executeF noRunnerCfg 1) doneArg "build" "build" []))
        ⟨(resolveTaskM producerPreNs (getFnName "build" "pre") ':').2,
         [.callProducer "prod" "build" []
            (wOf noRunnerCfg ⟨"prod", 3, none, .fnR ⟨"r", 1, none, none⟩⟩)]⟩) :=
  ⟨claim_C6_amended.1 noRunnerCfg (executeF noRunnerCfg 1)
      ⟨"fn1", 1, none, .nonFn .undefT⟩ "build" "build" []
      (JSVal.obj [("build", plainTask "fn1"), ("prebuild", plainTask "g")])
      (by decide) (by decide),
   claim_C6_amended.2.1 noRunnerCfg (executeF noRunnerCfg 1)
      ⟨"prod", 3, none, .fnR ⟨"r", 1, none, none⟩⟩ "build" "build" []
      producerPreNs (Or.inl rfl) rfl⟩

/-- The fixture for C10: a 3-parameter global runner producing a callable. -/
def globalRunnerF : FnVal := ⟨"f", 3, none, .fnR ⟨"r", 1, none, none⟩⟩

/-- C10: with a plain-callable configured runner, selection marks every name
found (the runner, under the unmodified name), no execution at any fuel on
any namespace ever logs the not-found diagnostic, and the engine proceeds to
invoke the configured runner and to derive and attempt the pre/post hooks —
concretely, for the unresolvable name `"missing"` beside a `premissing`
hook, the runner is invoked for both the task and the hook and nothing is
reported missing. -/
theorem claim_C10_global_runner_suppresses_not_found :
    (∀ (f : FnVal) (opts fn0 ns : JSVal) (name : String) (args : Args),
      selectFn ⟨.func f, opts⟩ fn0 ns name args = ⟨.fn f, name, true⟩) ∧
    (∀ (f : FnVal) (opts ns : JSVal) (fuel : Nat) (name : String) (args : Args)
        (x : String),
      Event.notFound x ∉ (runTask ⟨.func f, opts⟩ fuel ns name args).2.trace) ∧
    runTask ⟨.func globalRunnerF, .obj []⟩ 2
        (JSVal.obj [("premissing", plainTask "ph")]) "missing" []
      = (.ok (), ⟨JSVal.obj [("premissing", plainTask "ph")],
          [.callProducer "f" "missing" [] false,
           .callProducer "f" "premissing" [] false, .starting "premissing",
           .callRunner "r", .finished "premissing", .starting "missing",
           .callRunner "r", .finished "missing"]⟩) := by
  refine ⟨fun _ _ _ _ _ _ => rfl, ?_, rfl⟩
  intro f opts ns fuel name args x
  exact noNF_executeF f opts fuel name args ⟨ns, []⟩
    (fun y hy => List.not_mem_nil _ hy) x

end Pine
